import Mathlib

/-!
Verification development for the SE_2(3) IMU process models of
`src/filtering/process_models.py` (classes `PreintegratedProcessModel`,
`CoupledIMUKinematicModel`, `IMUKinematicModel`, `NullOnUpdateCoupledIMU`).

Modelling conventions:
* Tensors of shape `[N, r, c]` become `Fin N → Matrix (Fin r) (Fin c) ℚ`;
  every torch operation used by the source broadcasts independently over the
  batch dimension, so the embedding applies the per-element operation
  pointwise.  Machine floats are modelled by exact rationals, as the claims
  under verification are exact algebraic identities.
* The external Lie-group library `pymlg.torch` (`SO3.Exp`,
  `SO3.left_jacobian`, `SO3.wedge`, `SE23.left_jacobian`, `SE23.adjoint`, ...)
  and the helper `form_N_matrix` from the repository module
  `filtering.filtering_utils` (not part of the sources under verification)
  are uninterpreted primitive parameters, bundled in the structure `Prims`
  below; every theorem quantifies over them.  `SE23.to_components`, which
  merely slices fixed blocks out of a 5x5 matrix, and `utils.batch_eye` /
  `utils.batch_vector`, which build constant matrices, are embedded
  concretely.
-/

namespace ProcessModels

open Matrix

/-- Rational-entried matrix of a fixed shape, the value of one batch element
of a torch tensor. -/
abbrev Mat (m n : ℕ) : Type := Matrix (Fin m) (Fin n) ℚ

/-- A 3-vector (one batch element of an `[N, 3]` tensor). -/
abbrev Vec3 : Type := Fin 3 → ℚ

/-- One batch element of an IMU input tensor of shape `[N, 2, 3]`:
row 0 is the angular velocity, row 1 the accelerometer reading. -/
abbrev Input : Type := Fin 2 → Vec3

/-- A batched tensor of shape `[N, m, n]`. -/
abbrev BMat (N m n : ℕ) : Type := Fin N → Mat m n

/-- A batched input tensor of shape `[N, 2, 3]`. -/
abbrev BInput (N : ℕ) : Type := Fin N → Input

/-- The uninterpreted external primitives consumed by the process models:
the `pymlg.torch` Lie-group library and `form_N_matrix` from
`filtering.filtering_utils`. -/
structure Prims where
  /-- `SO3.Exp` : rotation-vector exponential. -/
  so3Exp : Vec3 → Mat 3 3
  /-- `SO3.left_jacobian`. -/
  so3LeftJacobian : Vec3 → Mat 3 3
  /-- `SO3.left_jacobian_inv`. -/
  so3LeftJacobianInv : Vec3 → Mat 3 3
  /-- `SO3.wedge` : skew-symmetric embedding. -/
  so3Wedge : Vec3 → Mat 3 3
  /-- `form_N_matrix` from `filtering.filtering_utils` (repository code that
  is not among the sources under verification; no claim depends on its
  internals, only on both models calling the same function). -/
  formN : Vec3 → Mat 3 3
  /-- `SE23.left_jacobian` on a 9-dimensional tangent vector. -/
  se23LeftJacobian : (Fin 9 → ℚ) → Mat 9 9
  /-- `SE23.adjoint` of a 5x5 group element. -/
  se23Adjoint : Mat 5 5 → Mat 9 9
  /-- `SO3.Exp_torch` (used by the decoupled `IMUKinematicModel`). -/
  so3ExpT : Vec3 → Mat 3 3
  /-- `SO3.Log_torch`. -/
  so3LogT : Mat 3 3 → Vec3
  /-- `SO3.left_jacobian_torch`. -/
  so3LeftJacobianT : Vec3 → Mat 3 3

/-- Reindexing a `(3 + 2) x (3 + 2)` block matrix as a `5 x 5` matrix. -/
def reindex55 (M : Matrix (Fin 3 ⊕ Fin 2) (Fin 3 ⊕ Fin 2) ℚ) : Mat 5 5 :=
  Matrix.reindex finSumFinEquiv finSumFinEquiv M

/-- Reindexing a `(9 + 6) x (9 + 6)` block matrix as a `15 x 15` matrix. -/
def reindex15 (M : Matrix (Fin 9 ⊕ Fin 6) (Fin 9 ⊕ Fin 6) ℚ) : Mat 15 15 :=
  Matrix.reindex finSumFinEquiv finSumFinEquiv M

/-- Reindexing a `(9 + 6) x (6 + 6)` block matrix as a `15 x 12` matrix. -/
def reindex1512 (M : Matrix (Fin 9 ⊕ Fin 6) (Fin 6 ⊕ Fin 6) ℚ) : Mat 15 12 :=
  Matrix.reindex finSumFinEquiv finSumFinEquiv M

/-- A `3 x 2` matrix from its two columns; used for the two vector columns of
the upper block of a 5x5 IE3/SE_2(3) matrix. -/
def twoCols (v p : Vec3) : Matrix (Fin 3) (Fin 2) ℚ :=
  Matrix.of fun i j => if j = 0 then v i else p i

/-- A `9 x 9` matrix assembled from a 3x3 grid of `3 x 3` blocks. -/
def blocks33 (B : Fin 3 → Fin 3 → Mat 3 3) : Mat 9 9 :=
  Matrix.of fun i j =>
    B ⟨(i : ℕ) / 3, by omega⟩ ⟨(j : ℕ) / 3, by omega⟩
      ⟨(i : ℕ) % 3, by omega⟩ ⟨(j : ℕ) % 3, by omega⟩

/-- A `9 x 6` matrix assembled from a 3x2 grid of `3 x 3` blocks. -/
def blocks32 (B : Fin 3 → Fin 2 → Mat 3 3) : Matrix (Fin 9) (Fin 6) ℚ :=
  Matrix.of fun i j =>
    B ⟨(i : ℕ) / 3, by omega⟩ ⟨(j : ℕ) / 3, by omega⟩
      ⟨(i : ℕ) % 3, by omega⟩ ⟨(j : ℕ) % 3, by omega⟩

/-- Embedding of the first three indices of a 5-element axis. -/
def emb35 : Fin 3 → Fin 5 := Fin.castLE (by omega)

/-- `SE23.to_components`, first component: the upper-left `3 x 3` block. -/
def compC (X : Mat 5 5) : Mat 3 3 :=
  Matrix.of fun i j => X (emb35 i) (emb35 j)

/-- `SE23.to_components`, second component: rows 0-2 of column 3. -/
def compV (X : Mat 5 5) : Vec3 := fun i => X (emb35 i) 3

/-- `SE23.to_components`, third component: rows 0-2 of column 4. -/
def compR (X : Mat 5 5) : Vec3 := fun i => X (emb35 i) 4

/-- `CoupledIMUKinematicModel.generate_u`: the auxiliary IE3 propagation
matrix built from one IMU sample and the time step. -/
def generate_u (P : Prims) (u : Input) (dt : ℚ) : Mat 5 5 :=
  reindex55 (Matrix.fromBlocks
    (P.so3Exp (dt • u 0))
    (twoCols (dt • (P.so3LeftJacobian (dt • u 0)).mulVec (u 1))
      ((dt ^ 2 / 2) • (P.formN (dt • u 0)).mulVec (u 1)))
    0 !![1, dt; 0, 1])

/-- `CoupledIMUKinematicModel.generate_g`: the constant gravity propagation
matrix.  (The input `u` is consumed only for its batch dimension in the
source and is likewise unused here.) -/
def generate_g (_u : Input) (dt : ℚ) (g_a : Vec3) : Mat 5 5 :=
  reindex55 (Matrix.fromBlocks
    1 (twoCols (dt • g_a) (-(dt ^ 2 / 2) • g_a)) 0 !![1, -dt; 0, 1])

/-- `CoupledIMUKinematicModel.generate_nu`: the R^9 parameterization of one
IMU increment. -/
def generate_nu (P : Prims) (u : Input) (dt : ℚ) : Fin 9 → ℚ := fun i =>
  if h : (i : ℕ) < 3 then dt * u 0 ⟨(i : ℕ), h⟩
  else if h6 : (i : ℕ) < 6 then dt * u 1 ⟨(i : ℕ) - 3, by omega⟩
  else
    ((dt ^ 2 / 2) •
      ((P.so3LeftJacobianInv (dt • u 0) * P.formN (dt • u 0)).mulVec (u 1)))
      ⟨(i : ℕ) - 6, by omega⟩

/-- `CoupledIMUKinematicModel.generate_upsilon`: the approximate Jacobian of
`generate_nu` with respect to the IMU input.  The source assigns both an
inline `upsilon_30` and a `upsilon_30_navlie` variant for the lower-left
block and uses the navlie variant; the embedding computes the used one. -/
def generate_upsilon (P : Prims) (u : Input) (dt : ℚ) :
    Matrix (Fin 9) (Fin 6) ℚ :=
  let om : Mat 3 3 := P.so3Wedge (u 0 * dt • 1)
  let omom : Mat 3 3 := om * om
  let upsilon30navlie : Mat 3 3 :=
    (-(1 / 2 : ℚ) * (dt ^ 2 / 2)) •
      ((1 / 360 : ℚ) • ((dt ^ 3) •
        (omom * P.so3Wedge (u 1) + om * P.so3Wedge (om.mulVec (u 1)) +
          P.so3Wedge (omom.mulVec (u 1)))) -
       (1 / 6 : ℚ) • (dt • P.so3Wedge (u 1)))
  let upsilon31 : Mat 3 3 :=
    ((dt ^ 2) / 2) • (P.so3LeftJacobianInv (dt • u 0) * P.formN (dt • u 0))
  blocks32 ![![dt • 1, 0], ![0, dt • 1], ![upsilon30navlie, upsilon31]]

/-- `CoupledIMUKinematicModel.ie3_adj`: the closed-form adjoint of an IE3
matrix, from its components and internal scalar `c = X[3, 4]`. -/
def ie3_adj (P : Prims) (X : Mat 5 5) : Mat 9 9 :=
  let C := compC X
  let c : ℚ := X 3 4
  blocks33
    ![![C, 0, 0],
      ![P.so3Wedge (compV X) * C, C, 0],
      ![-(P.so3Wedge (c • compV X - compR X)) * C, -c • C, C]]

/-- `CoupledIMUKinematicModel.ie3_inv`: the closed-form inverse of an IE3
matrix. -/
def ie3_inv (X : Mat 5 5) : Mat 5 5 :=
  let C := compC X
  let c : ℚ := X 3 4
  reindex55 (Matrix.fromBlocks
    Cᵀ
    (twoCols (-(Cᵀ.mulVec (compV X))) (Cᵀ.mulVec (c • compV X - compR X)))
    0 !![1, -c; 0, 1])

/-- `CoupledIMUKinematicModel.generate_u_inverse`. -/
def generate_u_inverse (P : Prims) (u : Input) (dt : ℚ) : Mat 5 5 :=
  ie3_inv (generate_u P u dt)

/-- `CoupledIMUKinematicModel.input_jacobian_pose`: the per-step `9 x 6`
pose input-Jacobian. -/
def input_jacobian_pose (P : Prims) (u : Input) (dt : ℚ) :
    Matrix (Fin 9) (Fin 6) ℚ :=
  P.se23LeftJacobian (-(generate_nu P u dt)) * generate_upsilon P u dt

/-- The construction parameters shared by `CoupledIMUKinematicModel` and
`PreintegratedProcessModel`: the continuous-time noise density `Q_c`, the
perturbation convention string, and the gravity vector (already reshaped to
a column as by `g_a.reshape(1, 3, 1)`). -/
structure ModelParams where
  Q_c : Mat 12 12
  perturbation : String
  g_a : Vec3

/-- The constructor validation shared by both `__init__` methods:
`if (perturbation != "right") and (perturbation != "left"): raise
ValueError(...)`. -/
def mkModelParams (Q_c : Mat 12 12) (perturbation : String) (g_a : Vec3) :
    Except String ModelParams :=
  if perturbation ≠ "right" ∧ perturbation ≠ "left" then
    Except.error "perturbation must be either right or left"
  else
    Except.ok ⟨Q_c, perturbation, g_a⟩

/-- `CoupledIMUKinematicModel.__init__`. -/
def mkCoupledIMUKinematicModel (Q_c : Mat 12 12) (perturbation : String)
    (g_a : Vec3) : Except String ModelParams :=
  mkModelParams Q_c perturbation g_a

/-- The mutable incremental state of a `PreintegratedProcessModel`
(batched over `N` trajectories; the source initializes each field as a
batch-1 tensor that broadcasts against batch `N`, embedded here as the
constant batched tensor).  The source initializes `L_ij` as a `15 x 12`
zero placeholder that is replaced by a `15 x 15` matrix at the first
`evaluate`; it is embedded as the `15 x 15` zero matrix, and no claim
reads `L_ij` before the first `evaluate`. -/
structure PreState (N : ℕ) where
  U_ij : BMat N 5 5
  G_ij : BMat N 5 5
  B_ij : BMat N 9 6
  Q_ij : BMat N 15 15
  P_i : BMat N 15 15
  P_j : BMat N 15 15
  A_ij : BMat N 15 15
  L_ij : BMat N 15 15

/-- The incremental-state initialization performed by
`PreintegratedProcessModel.__init__`. -/
def preInit (N : ℕ) : PreState N where
  U_ij := fun _ => 1
  G_ij := fun _ => 1
  B_ij := fun _ => 0
  Q_ij := fun _ => 0
  P_i := fun _ => 0
  P_j := fun _ => 0
  A_ij := fun _ => 0
  L_ij := fun _ => 0

/-- `PreintegratedProcessModel.__init__`: parameter validation plus
incremental-state initialization. -/
def mkPreintegratedProcessModel (N : ℕ) (Q_c : Mat 12 12)
    (perturbation : String) (g_a : Vec3) :
    Except String (ModelParams × PreState N) :=
  (mkModelParams Q_c perturbation g_a).map fun mp => (mp, preInit N)

/-- `CoupledIMUKinematicModel.evaluate`: `x ← G @ x @ U`, batched. -/
def coupledEvaluate (P : Prims) (g_a : Vec3) {N : ℕ} (x : BMat N 5 5)
    (u : BInput N) (dt : ℚ) : BMat N 5 5 := fun b =>
  generate_g (u b) dt g_a * x b * generate_u P (u b) dt

/-- `CoupledIMUKinematicModel.state_jacobian` (the `else` branch of the
source handles every perturbation other than `"right"` with the
left-convention formula). -/
def coupledStateJacobian (P : Prims) (mp : ModelParams) {N : ℕ}
    (x : BMat N 5 5) (u : BInput N) (dt : ℚ) : BMat N 15 15 := fun b =>
  if mp.perturbation = "right" then
    reindex15 (Matrix.fromBlocks
      (ie3_adj P (generate_u_inverse P (u b) dt))
      (-(input_jacobian_pose P (u b) dt)) 0 1)
  else
    reindex15 (Matrix.fromBlocks
      (ie3_adj P (generate_g (u b) dt mp.g_a))
      (-(P.se23Adjoint (x b) * input_jacobian_pose P (u b) dt)) 0 1)

/-- `CoupledIMUKinematicModel.input_jacobian`: the full `15 x 12` noise
map. -/
def coupledInputJacobian (P : Prims) (mp : ModelParams) {N : ℕ}
    (x : BMat N 5 5) (u : BInput N) (dt : ℚ) : BMat N 15 12 := fun b =>
  if mp.perturbation = "right" then
    reindex1512 (Matrix.fromBlocks
      (input_jacobian_pose P (u b) dt) 0 0 (dt • 1))
  else
    reindex1512 (Matrix.fromBlocks
      (P.se23Adjoint (x b) * input_jacobian_pose P (u b) dt) 0 0 (dt • 1))

/-- `CoupledIMUKinematicModel.covariance`:
`Q_k = input_jacobian @ (Q_c / dt) @ input_jacobianᵀ`.  The source divides
by `dt` unconditionally, with no positivity check; over exact rationals a
zero `dt` makes `Q_c / dt` the zero matrix (torch floats produce non-finite
entries), and in either semantics a value is returned rather than an error
raised. -/
def coupledCovariance (P : Prims) (mp : ModelParams) {N : ℕ}
    (x : BMat N 5 5) (u : BInput N) (dt : ℚ) : BMat N 15 15 := fun b =>
  coupledInputJacobian P mp x u dt b * (dt⁻¹ • mp.Q_c) *
    (coupledInputJacobian P mp x u dt b)ᵀ

/-- The per-step `15 x 15` transition used for the incremental covariance
recursion of `PreintegratedProcessModel.evaluate` (equation (59) block
`A_full`). -/
def stepAfull (P : Prims) (u : Input) (dt : ℚ) : Mat 15 15 :=
  reindex15 (Matrix.fromBlocks
    (ie3_adj P (ie3_inv (generate_u P u dt)))
    (-(input_jacobian_pose P u dt)) 0 1)

/-- The per-step `15 x 12` noise map used for the incremental covariance
recursion of `PreintegratedProcessModel.evaluate` (block `L_full`). -/
def stepLfull (P : Prims) (u : Input) (dt : ℚ) : Mat 15 12 :=
  reindex1512 (Matrix.fromBlocks (input_jacobian_pose P u dt) 0 0 (dt • 1))

/-- `PreintegratedProcessModel.evaluate`: propagates the state and mutates
every accumulator field; returns the new accumulator together with the
propagated state. -/
def preEvaluate (P : Prims) (mp : ModelParams) {N : ℕ} (s : PreState N)
    (x : BMat N 5 5) (u : BInput N) (dt : ℚ) : PreState N × BMat N 5 5 :=
  let x' : BMat N 5 5 := fun b =>
    generate_g (u b) dt mp.g_a * x b * generate_u P (u b) dt
  let U_ij' : BMat N 5 5 := fun b => s.U_ij b * generate_u P (u b) dt
  let G_ij' : BMat N 5 5 := fun b => generate_g (u b) dt mp.g_a * s.G_ij b
  let B_ij' : BMat N 9 6 := fun b =>
    ie3_adj P (ie3_inv (generate_u P (u b) dt)) * s.B_ij b -
      input_jacobian_pose P (u b) dt
  let Q_ij' : BMat N 15 15 := fun b =>
    stepAfull P (u b) dt * s.Q_ij b * (stepAfull P (u b) dt)ᵀ +
      stepLfull P (u b) dt * (dt⁻¹ • mp.Q_c) * (stepLfull P (u b) dt)ᵀ
  let A_ij' : BMat N 15 15 :=
    if mp.perturbation = "right" then fun b =>
      reindex15 (Matrix.fromBlocks
        (ie3_adj P (ie3_inv (U_ij' b))) (B_ij' b) 0 1)
    else if mp.perturbation = "left" then fun b =>
      reindex15 (Matrix.fromBlocks
        (ie3_adj P (G_ij' b)) (P.se23Adjoint (x' b) * B_ij' b) 0 1)
    else s.A_ij
  let L_ij' : BMat N 15 15 :=
    if mp.perturbation = "right" then fun _ => 1
    else if mp.perturbation = "left" then fun b =>
      reindex15 (Matrix.fromBlocks (P.se23Adjoint (x' b)) 0 0 1)
    else s.L_ij
  (⟨U_ij', G_ij', B_ij', Q_ij', s.P_i, s.P_j, A_ij', L_ij'⟩, x')

/-- `PreintegratedProcessModel.reset_incremental_jacobians`. -/
def preReset {N : ℕ} (s : PreState N) (P : BMat N 15 15) : PreState N :=
  { s with
    U_ij := fun _ => 1
    G_ij := fun _ => 1
    B_ij := fun _ => 0
    Q_ij := fun _ => 0
    P_i := P
    P_j := P }

/-- `PreintegratedProcessModel.state_jacobian`: returns the stored `A_ij`,
ignoring all three arguments. -/
def preStateJacobian {N : ℕ} (s : PreState N) (_x : BMat N 5 5)
    (_u : BInput N) (_dt : ℚ) : BMat N 15 15 :=
  s.A_ij

/-- `PreintegratedProcessModel.covariance`: returns
`L_ij @ Q_ij @ L_ijᵀ`, ignoring all three arguments.  The source first
casts both factors to double precision; over exact rationals the cast is
the identity. -/
def preCovariance {N : ℕ} (s : PreState N) (_x : BMat N 5 5)
    (_u : BInput N) (_dt : ℚ) : BMat N 15 15 := fun b =>
  s.L_ij b * s.Q_ij b * (s.L_ij b)ᵀ

/-- A `NullOnUpdateCoupledIMU` instance: the inherited construction
parameters plus the externally mutated 5-element `marker` buffer. -/
structure NullModel where
  params : ModelParams
  marker : Fin 5 → Bool

/-- The `marker[0]` gate of `NullOnUpdateCoupledIMU.evaluate`:
`U[:, 0:3, 0:3] = eye(3)`. -/
def maskRotU (U : Mat 5 5) : Mat 5 5 :=
  Matrix.of fun i j =>
    if (i : ℕ) < 3 ∧ (j : ℕ) < 3 then (if (i : ℕ) = (j : ℕ) then 1 else 0)
    else U i j

/-- The `marker[1]` gate of `NullOnUpdateCoupledIMU.evaluate`:
`U[:, :, 3:] = 0` followed by `U[:, 3:5, 3:5] = eye(2)`. -/
def maskVelPosU (U : Mat 5 5) : Mat 5 5 :=
  Matrix.of fun i j =>
    if 3 ≤ (j : ℕ) then
      (if 3 ≤ (i : ℕ) ∧ (i : ℕ) = (j : ℕ) then 1 else 0)
    else U i j

/-- `NullOnUpdateCoupledIMU.evaluate`: applies the marker gates to `U` and,
when `marker[1]` is set, short-circuits to `x @ U` without the gravity
matrix `G`. -/
def nullEvaluate (P : Prims) (m : NullModel) {N : ℕ} (x : BMat N 5 5)
    (u : BInput N) (dt : ℚ) : BMat N 5 5 := fun b =>
  let U0 := generate_u P (u b) dt
  let U1 := if m.marker 0 then maskRotU U0 else U0
  if m.marker 1 then x b * maskVelPosU U1
  else generate_g (u b) dt m.params.g_a * x b * U1

/-- The `marker[0]` gate of `NullOnUpdateCoupledIMU.state_jacobian`:
`F[:, 0:3, :] = 0` followed by `F[:, 0:3, 0:3] = eye(3)`. -/
def maskRotF (F : Mat 15 15) : Mat 15 15 :=
  Matrix.of fun i j =>
    if (i : ℕ) < 3 then
      (if (j : ℕ) < 3 ∧ (i : ℕ) = (j : ℕ) then 1 else 0)
    else F i j

/-- The `marker[1]` gate of `NullOnUpdateCoupledIMU.state_jacobian`:
`F[:, 3:9, :] = 0`, then `F[:, 3:6, 3:6] = eye(3)` and
`F[:, 6:9, 6:9] = eye(3)`. -/
def maskVelPosF (F : Mat 15 15) : Mat 15 15 :=
  Matrix.of fun i j =>
    if 3 ≤ (i : ℕ) ∧ (i : ℕ) < 9 then
      (if (i : ℕ) = (j : ℕ) then 1 else 0)
    else F i j

/-- `NullOnUpdateCoupledIMU.state_jacobian`: the inherited Jacobian with
marker rows nulled and their diagonal blocks forced to identity. -/
def nullStateJacobian (P : Prims) (m : NullModel) {N : ℕ} (x : BMat N 5 5)
    (u : BInput N) (dt : ℚ) : BMat N 15 15 := fun b =>
  let F0 := coupledStateJacobian P m.params x u dt b
  let F1 := if m.marker 0 then maskRotF F0 else F0
  if m.marker 1 then maskVelPosF F1 else F1

/-- The `marker[0]` gate of `NullOnUpdateCoupledIMU.input_jacobian`:
`G[:, 0:3, :] = 0` (rows zeroed only; no identity is written). -/
def maskRotL (L : Mat 15 12) : Mat 15 12 :=
  Matrix.of fun i j => if (i : ℕ) < 3 then 0 else L i j

/-- The `marker[1]` gate of `NullOnUpdateCoupledIMU.input_jacobian`:
`G[:, 3:9, :] = 0` (rows zeroed only; no identity is written). -/
def maskVelPosL (L : Mat 15 12) : Mat 15 12 :=
  Matrix.of fun i j =>
    if 3 ≤ (i : ℕ) ∧ (i : ℕ) < 9 then 0 else L i j

/-- `NullOnUpdateCoupledIMU.input_jacobian`: the inherited noise map with
marker rows nulled. -/
def nullInputJacobian (P : Prims) (m : NullModel) {N : ℕ} (x : BMat N 5 5)
    (u : BInput N) (dt : ℚ) : BMat N 15 12 := fun b =>
  let L0 := coupledInputJacobian P m.params x u dt b
  let L1 := if m.marker 0 then maskRotL L0 else L0
  if m.marker 1 then maskVelPosL L1 else L1

/-- One batch element of the flattened `[N, 15, 1]` state consumed by the
decoupled `IMUKinematicModel`. -/
abbrev Vec15 : Type := Fin 15 → ℚ

/-- A batched flattened state tensor. -/
abbrev BVec15 (N : ℕ) : Type := Fin N → Vec15

/-- A store of tensor objects indexed by object identity, used to express
the in-place mutation performed by `IMUKinematicModel.evaluate`: the state
argument is passed as an address into the store. -/
abbrev Store (N : ℕ) : Type := ℕ → BVec15 N

/-- The value written into the state tensor by
`IMUKinematicModel.evaluate`: slices `[0:3]`, `[3:6]`, `[6:9]` receive the
propagated attitude log-vector, velocity and position; every other entry
(the bias slice `[9:15]`) is left as it was. -/
def imuWrittenState (P : Prims) (g_a : Vec3) {N : ℕ} (xv : BVec15 N)
    (u : BInput N) (dt : ℚ) : BVec15 N := fun b =>
  let omega := u b 0
  let acc := u b 1
  let r : Vec3 := fun i => xv b ⟨6 + (i : ℕ), by omega⟩
  let v : Vec3 := fun i => xv b ⟨3 + (i : ℕ), by omega⟩
  let C : Mat 3 3 := P.so3ExpT (fun i => xv b (Fin.castLE (by omega) i))
  let r' : Vec3 := r + dt • v + (dt ^ 2 / 2) • (g_a + C.mulVec acc)
  let v' : Vec3 := v + dt • g_a + dt • C.mulVec acc
  let C' : Mat 3 3 := C * P.so3ExpT (dt • omega)
  fun i =>
    if h3 : (i : ℕ) < 3 then P.so3LogT C' ⟨(i : ℕ), h3⟩
    else if h6 : (i : ℕ) < 6 then v' ⟨(i : ℕ) - 3, by omega⟩
    else if h9 : (i : ℕ) < 9 then r' ⟨(i : ℕ) - 6, by omega⟩
    else xv b i

/-- The rotation written into the instance field `self.C` by
`IMUKinematicModel.evaluate`. -/
def imuWrittenC (P : Prims) {N : ℕ} (xv : BVec15 N) (u : BInput N)
    (dt : ℚ) : BMat N 3 3 := fun b =>
  P.so3ExpT (fun i => xv b (Fin.castLE (by omega) i)) * P.so3ExpT (dt • u b 0)

/-- `IMUKinematicModel.evaluate`, with the state argument passed by
reference (`addr`): returns the mutated store, the mutated instance field
`self.C`, and the returned pair `(x, self.C)`, whose first element is the
address of the argument tensor itself. -/
def imuEvaluate (P : Prims) (g_a : Vec3) {N : ℕ} (σ : Store N) (addr : ℕ)
    (_selfC : BMat N 3 3) (u : BInput N) (dt : ℚ) :
    Store N × BMat N 3 3 × (ℕ × BMat N 3 3) :=
  let xv := σ addr
  let newx := imuWrittenState P g_a xv u dt
  let newC := imuWrittenC P xv u dt
  (Function.update σ addr newx, newC, (addr, newC))

/-- `CoupledIMUKinematicModel.evaluate` iterated over a finite input/time
sequence. -/
def coupledRun (P : Prims) (g_a : Vec3) {N : ℕ} :
    List (BInput N × ℚ) → BMat N 5 5 → BMat N 5 5
  | [], x => x
  | (u, dt) :: l, x => coupledRun P g_a l (coupledEvaluate P g_a x u dt)

/-- `PreintegratedProcessModel.evaluate` iterated over a finite input/time
sequence, threading the accumulator state. -/
def preRun (P : Prims) (mp : ModelParams) {N : ℕ} :
    List (BInput N × ℚ) → PreState N → BMat N 5 5 → PreState N × BMat N 5 5
  | [], s, x => (s, x)
  | (u, dt) :: l, s, x =>
      preRun P mp l (preEvaluate P mp s x u dt).1 (preEvaluate P mp s x u dt).2

/-- A concrete instantiation of the external primitive library, used only to
evaluate the models at concrete inputs. -/
def P0 : Prims where
  so3Exp := fun _ => 1
  so3LeftJacobian := fun _ => 1
  so3LeftJacobianInv := fun _ => 1
  so3Wedge := fun _ => 0
  formN := fun _ => 1
  se23LeftJacobian := fun _ => 1
  se23Adjoint := fun X => (X 0 3 + 1) • 1
  so3ExpT := fun _ => 1
  so3LogT := fun _ => 0
  so3LeftJacobianT := fun _ => 1

/-- Concrete right-convention construction parameters. -/
def mpRight : ModelParams := ⟨1, "right", fun _ => 0⟩

/-- Concrete left-convention construction parameters with gravity along the
first axis. -/
def mpLeft : ModelParams := ⟨1, "left", ![1, 0, 0]⟩

/-- A concrete batch-1 state: the identity element of SE_2(3). -/
def x0 : BMat 1 5 5 := fun _ => 1

/-- A concrete batch-1 zero IMU input. -/
def u0 : BInput 1 := fun _ _ => 0

/-- A concrete IE3 matrix with identity rotation block, nonzero velocity
and position columns and internal scalar `7`. -/
def Xw : Mat 5 5 :=
  reindex55 (Matrix.fromBlocks 1 (twoCols ![1, 2, 3] ![4, 5, 6]) 0
    !![1, 7; 0, 1])

/-- C1: for every initial state, every finite sequence of inputs with
positive time steps and the same construction parameters, iterating
`PreintegratedProcessModel.evaluate` produces exactly the same final state
as iterating `CoupledIMUKinematicModel.evaluate`, from any accumulator
state. -/
theorem preintegrated_coupled_state_equiv (P : Prims) (mp : ModelParams)
    {N : ℕ} (l : List (BInput N × ℚ)) (s : PreState N) (x : BMat N 5 5)
    (hdt : ∀ p ∈ l, 0 < p.2) :
    (preRun P mp l s x).2 = coupledRun P mp.g_a l x := by
  induction l generalizing s x with
  | nil => rfl
  | cons p l ih =>
      exact ih _ _ fun q hq => hdt q (List.mem_cons_of_mem p hq)

/-- Witness for C1 at a concrete one-step input sequence. -/
theorem preintegrated_coupled_state_equiv_witness :
    (preRun P0 mpRight [(u0, 1)] (preInit 1) x0).2
      = coupledRun P0 mpRight.g_a [(u0, 1)] x0 :=
  preintegrated_coupled_state_equiv P0 mpRight [(u0, 1)] (preInit 1) x0
    (by intro q hq; rw [List.mem_singleton] at hq; subst hq; norm_num)

/-- C3: every `PreintegratedProcessModel.evaluate` call with positive `dt`
updates the accumulators exactly as `U_ij ← U_ij U`, `G_ij ← G G_ij`,
`B_ij ← adj(inv(U)) B_ij − L_step`, and
`Q_ij ← A_full Q_ij A_fullᵀ + L_full (Q_c/dt) L_fullᵀ`, where `A_full`
has top-left 9x9 block `adj(inv(U))`, top-right 9x6 block `−L_step`,
bottom-right 6x6 identity and zeros elsewhere, and `L_full` has top-left
9x6 block `L_step`, bottom-right 6x6 block `dt·I` and zeros elsewhere. -/
theorem preEvaluate_accumulator_update (P : Prims) (mp : ModelParams)
    {N : ℕ} (s : PreState N) (x : BMat N 5 5) (u : BInput N) (dt : ℚ)
    (hdt : 0 < dt) :
    ((preEvaluate P mp s x u dt).1.U_ij
        = fun b => s.U_ij b * generate_u P (u b) dt) ∧
    ((preEvaluate P mp s x u dt).1.G_ij
        = fun b => generate_g (u b) dt mp.g_a * s.G_ij b) ∧
    ((preEvaluate P mp s x u dt).1.B_ij
        = fun b => ie3_adj P (ie3_inv (generate_u P (u b) dt)) * s.B_ij b
            - input_jacobian_pose P (u b) dt) ∧
    ((preEvaluate P mp s x u dt).1.Q_ij = fun b =>
        reindex15 (Matrix.fromBlocks
            (ie3_adj P (ie3_inv (generate_u P (u b) dt)))
            (-(input_jacobian_pose P (u b) dt)) 0 1)
          * s.Q_ij b
          * (reindex15 (Matrix.fromBlocks
              (ie3_adj P (ie3_inv (generate_u P (u b) dt)))
              (-(input_jacobian_pose P (u b) dt)) 0 1))ᵀ
        + reindex1512 (Matrix.fromBlocks
            (input_jacobian_pose P (u b) dt) 0 0 (dt • 1))
          * (dt⁻¹ • mp.Q_c)
          * (reindex1512 (Matrix.fromBlocks
              (input_jacobian_pose P (u b) dt) 0 0 (dt • 1)))ᵀ) :=
  ⟨rfl, rfl, rfl, rfl⟩

/-- Witness for C3 at a concrete accumulator state and input. -/
theorem preEvaluate_accumulator_update_witness :
    (preEvaluate P0 mpRight (preInit 1) x0 u0 1).1.U_ij
      = fun b => (preInit 1).U_ij b * generate_u P0 (u0 b) 1 :=
  (preEvaluate_accumulator_update P0 mpRight (preInit 1) x0 u0 1
    (by norm_num)).1

/-- C4 evaluation: `CoupledIMUKinematicModel.covariance` contains no guard
on `dt`; at `dt = 0` it does not raise an error but performs the division
and returns a value (the zero matrix over exact rationals, where division
by zero yields zero; non-finite entries under torch float semantics). -/
theorem coupledCovariance_no_dt_guard (P : Prims) (mp : ModelParams)
    {N : ℕ} (x : BMat N 5 5) (u : BInput N) :
    coupledCovariance P mp x u 0 = fun _ => 0 := by
  funext b
  simp [coupledCovariance]

/-- C5: constructing either model with a perturbation string other than
`"right"` or `"left"` fails during construction, and both admissible
strings succeed. -/
theorem constructor_perturbation_validation (Q_c : Mat 12 12) (g_a : Vec3)
    (N : ℕ) (p : String) (hp : p ≠ "right" ∧ p ≠ "left") :
    mkCoupledIMUKinematicModel Q_c p g_a
        = Except.error "perturbation must be either right or left" ∧
    mkPreintegratedProcessModel N Q_c p g_a
        = Except.error "perturbation must be either right or left" ∧
    mkCoupledIMUKinematicModel Q_c "right" g_a
        = Except.ok ⟨Q_c, "right", g_a⟩ ∧
    mkCoupledIMUKinematicModel Q_c "left" g_a
        = Except.ok ⟨Q_c, "left", g_a⟩ ∧
    mkPreintegratedProcessModel N Q_c "right" g_a
        = Except.ok (⟨Q_c, "right", g_a⟩, preInit N) ∧
    mkPreintegratedProcessModel N Q_c "left" g_a
        = Except.ok (⟨Q_c, "left", g_a⟩, preInit N) := by
  refine ⟨?_, ?_, ?_, ?_, ?_, ?_⟩ <;>
    simp [mkCoupledIMUKinematicModel, mkPreintegratedProcessModel,
      mkModelParams, Except.map, hp.1, hp.2]

/-- Witness for C5 at the concrete invalid perturbation string `"up"`. -/
theorem constructor_perturbation_validation_witness :
    mkCoupledIMUKinematicModel (1 : Mat 12 12) "up" (fun _ => 0)
      = Except.error "perturbation must be either right or left" :=
  (constructor_perturbation_validation 1 (fun _ => 0) 1 "up" (by decide)).1

/-- Products of matrices reindexed from `(9 + 6) x (9 + 6)` block form. -/
theorem reindex15_mul (M N : Matrix (Fin 9 ⊕ Fin 6) (Fin 9 ⊕ Fin 6) ℚ) :
    reindex15 M * reindex15 N = reindex15 (M * N) := by
  simp only [reindex15, Matrix.reindex_apply]
  exact Matrix.submatrix_mul_equiv M N _ _ _

/-- Transpose commutes with the `15 x 15` block reindexing. -/
theorem reindex15_transpose (M : Matrix (Fin 9 ⊕ Fin 6) (Fin 9 ⊕ Fin 6) ℚ) :
    (reindex15 M)ᵀ = reindex15 Mᵀ := by
  simp only [reindex15, Matrix.transpose_reindex]

/-- A `15 x 12` block-reindexed matrix times its own transpose. -/
theorem reindex1512_mul_transpose
    (M : Matrix (Fin 9 ⊕ Fin 6) (Fin 6 ⊕ Fin 6) ℚ) :
    reindex1512 M * (reindex1512 M)ᵀ = reindex15 (M * Mᵀ) := by
  simp only [reindex1512, reindex15, Matrix.reindex_apply,
    Matrix.transpose_submatrix]
  exact Matrix.submatrix_mul_equiv M Mᵀ _ _ _

/-- C2 (amended): immediately after `reset_incremental_jacobians(P)` the
composite increments satisfy `U_ij = G_ij = I`, `B_ij = 0`, `Q_ij = 0` and
`P_i = P_j = P`; a subsequent single `evaluate` reproduces the single-step
model's propagated state exactly (both conventions), and under the right
perturbation convention a subsequent `covariance` call reproduces the
single-step model's covariance exactly.  (Under the left convention the
covariances differ in general: the preintegrated model applies the adjoint
of the propagated state `G x U`, the single-step model the adjoint of the
argument state `x`.) -/
theorem preReset_single_step_reproduction (P : Prims) (mp : ModelParams)
    {N : ℕ} (s : PreState N) (Pc : BMat N 15 15) (x : BMat N 5 5)
    (u : BInput N) (dt : ℚ) (hdt : 0 < dt) :
    (preReset s Pc).U_ij = (fun _ => 1) ∧
    (preReset s Pc).G_ij = (fun _ => 1) ∧
    (preReset s Pc).B_ij = (fun _ => 0) ∧
    (preReset s Pc).Q_ij = (fun _ => 0) ∧
    (preReset s Pc).P_i = Pc ∧
    (preReset s Pc).P_j = Pc ∧
    (preEvaluate P mp (preReset s Pc) x u dt).2
      = coupledEvaluate P mp.g_a x u dt ∧
    (mp.perturbation = "right" →
      preCovariance (preEvaluate P mp (preReset s Pc) x u dt).1 x u dt
        = coupledCovariance P mp x u dt) := by
  refine ⟨rfl, rfl, rfl, rfl, rfl, rfl, rfl, ?_⟩
  intro hr
  have hL : (preEvaluate P mp (preReset s Pc) x u dt).1.L_ij
      = fun _ => (1 : Mat 15 15) := by
    simp [preEvaluate, hr]
  have hQ : (preEvaluate P mp (preReset s Pc) x u dt).1.Q_ij = fun b =>
      stepLfull P (u b) dt * (dt⁻¹ • mp.Q_c)
        * (stepLfull P (u b) dt)ᵀ := by
    funext b
    show stepAfull P (u b) dt * (0 : Mat 15 15) * (stepAfull P (u b) dt)ᵀ
        + stepLfull P (u b) dt * (dt⁻¹ • mp.Q_c)
          * (stepLfull P (u b) dt)ᵀ = _
    rw [Matrix.mul_zero, Matrix.zero_mul, zero_add]
  funext b
  show (preEvaluate P mp (preReset s Pc) x u dt).1.L_ij b
      * (preEvaluate P mp (preReset s Pc) x u dt).1.Q_ij b
      * ((preEvaluate P mp (preReset s Pc) x u dt).1.L_ij b)ᵀ = _
  simp only [hL, hQ]
  rw [Matrix.transpose_one, Matrix.one_mul, Matrix.mul_one]
  have hJ : coupledInputJacobian P mp x u dt b = stepLfull P (u b) dt := by
    simp [coupledInputJacobian, stepLfull, hr]
  show _ = coupledInputJacobian P mp x u dt b * (dt⁻¹ • mp.Q_c)
      * (coupledInputJacobian P mp x u dt b)ᵀ
  rw [hJ]

/-- Witness for C2 (amended) at a concrete right-convention instance. -/
theorem preReset_single_step_reproduction_witness :
    preCovariance
        (preEvaluate P0 mpRight (preReset (preInit 1) (fun _ => 0))
          x0 u0 1).1 x0 u0 1
      = coupledCovariance P0 mpRight x0 u0 1 :=
  (preReset_single_step_reproduction P0 mpRight (preInit 1) (fun _ => 0)
    x0 u0 1 (by norm_num)).2.2.2.2.2.2.2 rfl

/-- Counterexample to C2 as stated: under the left perturbation convention,
after a reset a single `evaluate` followed by `covariance` does NOT
reproduce `CoupledIMUKinematicModel.covariance` at the same arguments; at
this concrete instance the `(0,0)` entries are `4` and `1`. -/
theorem preReset_single_step_covariance_left_cex :
    ¬ (preCovariance
        (preEvaluate P0 mpLeft (preReset (preInit 1) (fun _ => 0))
          x0 u0 1).1 x0 u0 1
      = coupledCovariance P0 mpLeft x0 u0 1) := by
  have hLpose : input_jacobian_pose P0 (u0 0) 1
      = generate_upsilon P0 (u0 0) 1 := by
    show (1 : Mat 9 9) * generate_upsilon P0 (u0 0) 1 = _
    rw [Matrix.one_mul]
  have hu00 : generate_upsilon P0 (u0 0) 1 0 0 = 1 := by
    show ((1 : ℚ) • (1 : Mat 3 3)) 0 0 = 1
    simp
  have hu01 : generate_upsilon P0 (u0 0) 1 0 1 = 0 := by
    show ((1 : ℚ) • (1 : Mat 3 3)) 0 1 = 0
    simp [Matrix.one_apply]
  have hu02 : generate_upsilon P0 (u0 0) 1 0 2 = 0 := by
    show ((1 : ℚ) • (1 : Mat 3 3)) 0 2 = 0
    simp [Matrix.one_apply]
  have hu03 : generate_upsilon P0 (u0 0) 1 0 3 = 0 := rfl
  have hu04 : generate_upsilon P0 (u0 0) 1 0 4 = 0 := rfl
  have hu05 : generate_upsilon P0 (u0 0) 1 0 5 = 0 := rfl
  have hS00 : (generate_upsilon P0 (u0 0) 1
      * (generate_upsilon P0 (u0 0) 1)ᵀ) 0 0 = 1 := by
    rw [Matrix.mul_apply, Fin.sum_univ_six]
    simp only [Matrix.transpose_apply]
    rw [hu00, hu01, hu02, hu03, hu04, hu05]
    norm_num
  have hx03 : (generate_g (u0 0) 1 mpLeft.g_a * x0 0
      * generate_u P0 (u0 0) 1) 0 3 = 1 := by
    rw [show (x0 0 : Mat 5 5) = 1 from rfl, Matrix.mul_one]
    rw [Matrix.mul_apply, Fin.sum_univ_five]
    have hG00 : generate_g (u0 0) 1 mpLeft.g_a 0 0 = 1 := by
      show (1 : Mat 3 3) 0 0 = 1
      simp
    have hG01 : generate_g (u0 0) 1 mpLeft.g_a 0 1 = 0 := by
      show (1 : Mat 3 3) 0 1 = 0
      simp [Matrix.one_apply]
    have hG02 : generate_g (u0 0) 1 mpLeft.g_a 0 2 = 0 := by
      show (1 : Mat 3 3) 0 2 = 0
      simp [Matrix.one_apply]
    have hG03 : generate_g (u0 0) 1 mpLeft.g_a 0 3 = 1 := by
      show ((1 : ℚ) • mpLeft.g_a) 0 = 1
      simp [mpLeft]
    have hG04 : generate_g (u0 0) 1 mpLeft.g_a 0 4 = -(1 / 2) := by
      show ((-(1 ^ 2 / 2) : ℚ) • mpLeft.g_a) 0 = -(1 / 2)
      simp [mpLeft]
    have hU03 : generate_u P0 (u0 0) 1 0 3 = 0 := by
      show ((1 : ℚ) • ((1 : Mat 3 3).mulVec (u0 0 1))) 0 = 0
      simp [show (u0 0 1 : Vec3) = 0 from rfl, Matrix.mulVec_zero]
    have hU13 : generate_u P0 (u0 0) 1 1 3 = 0 := by
      show ((1 : ℚ) • ((1 : Mat 3 3).mulVec (u0 0 1))) 1 = 0
      simp [show (u0 0 1 : Vec3) = 0 from rfl, Matrix.mulVec_zero]
    have hU23 : generate_u P0 (u0 0) 1 2 3 = 0 := by
      show ((1 : ℚ) • ((1 : Mat 3 3).mulVec (u0 0 1))) 2 = 0
      simp [show (u0 0 1 : Vec3) = 0 from rfl, Matrix.mulVec_zero]
    have hU33 : generate_u P0 (u0 0) 1 3 3 = 1 := rfl
    have hU43 : generate_u P0 (u0 0) 1 4 3 = 0 := rfl
    rw [hG00, hG01, hG02, hG03, hG04, hU03, hU13, hU23, hU33, hU43]
    norm_num
  have hAdp : P0.se23Adjoint (generate_g (u0 0) 1 mpLeft.g_a * x0 0
      * generate_u P0 (u0 0) 1) = (2 : ℚ) • 1 := by
    show ((generate_g (u0 0) 1 mpLeft.g_a * x0 0
      * generate_u P0 (u0 0) 1) 0 3 + 1) • (1 : Mat 9 9) = (2 : ℚ) • 1
    rw [hx03]
    norm_num
  have hAdx : P0.se23Adjoint (x0 0) = 1 := by
    show ((x0 0 : Mat 5 5) 0 3 + 1) • (1 : Mat 9 9) = 1
    rw [show ((x0 0 : Mat 5 5) 0 3) = 0 from rfl, zero_add, one_smul]
  have hPre : preCovariance
      (preEvaluate P0 mpLeft (preReset (preInit 1) (fun _ => 0))
        x0 u0 1).1 x0 u0 1 0 0 0 = 4 := by
    show (reindex15 (Matrix.fromBlocks
        (P0.se23Adjoint (generate_g (u0 0) 1 mpLeft.g_a * x0 0
          * generate_u P0 (u0 0) 1)) 0 0 1)
      * (stepAfull P0 (u0 0) 1 * (0 : Mat 15 15) * (stepAfull P0 (u0 0) 1)ᵀ
          + stepLfull P0 (u0 0) 1 * ((1 : ℚ)⁻¹ • (1 : Mat 12 12))
            * (stepLfull P0 (u0 0) 1)ᵀ)
      * (reindex15 (Matrix.fromBlocks
          (P0.se23Adjoint (generate_g (u0 0) 1 mpLeft.g_a * x0 0
            * generate_u P0 (u0 0) 1)) 0 0 1))ᵀ) 0 0 = 4
    rw [Matrix.mul_zero, Matrix.zero_mul, zero_add, inv_one, one_smul,
      Matrix.mul_one, hAdp]
    simp only [stepLfull]
    rw [reindex1512_mul_transpose, reindex15_transpose, reindex15_mul,
      reindex15_mul]
    rw [show ∀ Z : Matrix (Fin 9 ⊕ Fin 6) (Fin 9 ⊕ Fin 6) ℚ,
        reindex15 Z 0 0 = Z (Sum.inl 0) (Sum.inl 0) from fun Z => rfl]
    rw [Matrix.fromBlocks_transpose, Matrix.fromBlocks_transpose,
      Matrix.fromBlocks_multiply, Matrix.fromBlocks_multiply,
      Matrix.fromBlocks_multiply]
    rw [Matrix.fromBlocks_apply₁₁]
    rw [hLpose]
    simp only [Matrix.mul_zero, Matrix.zero_mul, zero_add, add_zero,
      Matrix.transpose_zero, Matrix.transpose_one, Matrix.transpose_smul,
      Matrix.mul_one, Matrix.one_mul, Matrix.smul_mul, Matrix.mul_smul,
      smul_smul]
    rw [Matrix.smul_apply, hS00]
    norm_num
  have hSingle : coupledCovariance P0 mpLeft x0 u0 1 0 0 0 = 1 := by
    show (reindex1512 (Matrix.fromBlocks
        (P0.se23Adjoint (x0 0) * input_jacobian_pose P0 (u0 0) 1) 0 0
        ((1 : ℚ) • 1))
      * ((1 : ℚ)⁻¹ • (1 : Mat 12 12))
      * (reindex1512 (Matrix.fromBlocks
          (P0.se23Adjoint (x0 0) * input_jacobian_pose P0 (u0 0) 1) 0 0
          ((1 : ℚ) • 1)))ᵀ) 0 0 = 1
    rw [hAdx, Matrix.one_mul, hLpose]
    simp only [inv_one, one_smul]
    rw [Matrix.mul_one, reindex1512_mul_transpose]
    rw [show ∀ Z : Matrix (Fin 9 ⊕ Fin 6) (Fin 9 ⊕ Fin 6) ℚ,
        reindex15 Z 0 0 = Z (Sum.inl 0) (Sum.inl 0) from fun Z => rfl]
    rw [Matrix.fromBlocks_transpose, Matrix.fromBlocks_multiply]
    rw [Matrix.fromBlocks_apply₁₁]
    simp only [Matrix.mul_zero, Matrix.zero_mul, zero_add, add_zero]
    exact hS00
  intro h
  have hentry := congrFun (congrFun (congrFun h 0) 0) 0
  rw [hPre, hSingle] at hentry
  norm_num at hentry

/-- C9: `PreintegratedProcessModel.state_jacobian` and
`PreintegratedProcessModel.covariance` are independent of their arguments:
on the same accumulator state, any two argument triples produce identical
results, namely the stored `A_ij` and `L_ij Q_ij L_ijᵀ`. -/
theorem preJacobianCovariance_argument_independent {N : ℕ}
    (s : PreState N) (x1 x2 : BMat N 5 5) (u1 u2 : BInput N)
    (dt1 dt2 : ℚ) :
    preStateJacobian s x1 u1 dt1 = preStateJacobian s x2 u2 dt2 ∧
    preStateJacobian s x1 u1 dt1 = s.A_ij ∧
    preCovariance s x1 u1 dt1 = preCovariance s x2 u2 dt2 ∧
    preCovariance s x1 u1 dt1
      = fun b => s.L_ij b * s.Q_ij b * (s.L_ij b)ᵀ :=
  ⟨rfl, rfl, rfl, rfl⟩

/-- Rows 0-2 of the masked state Jacobian hold an identity diagonal
block. -/
theorem maskRotF_low (F : Mat 15 15) (i j : Fin 15) (hi : (i : ℕ) < 3) :
    maskRotF F i j = if (i : ℕ) = (j : ℕ) then 1 else 0 := by
  simp only [maskRotF, Matrix.of_apply, if_pos hi]
  by_cases hij : (i : ℕ) = (j : ℕ)
  · rw [if_pos ⟨by omega, hij⟩, if_pos hij]
  · rw [if_neg (fun hc => hij hc.2), if_neg hij]

/-- The rotation mask leaves rows 3 and below of the state Jacobian
unchanged. -/
theorem maskRotF_high (F : Mat 15 15) (i j : Fin 15) (hi : 3 ≤ (i : ℕ)) :
    maskRotF F i j = F i j := by
  simp only [maskRotF, Matrix.of_apply]
  rw [if_neg (by omega)]

/-- The velocity/position mask leaves rows 0-2 of the state Jacobian
unchanged. -/
theorem maskVelPosF_low (F : Mat 15 15) (i j : Fin 15)
    (hi : (i : ℕ) < 3) : maskVelPosF F i j = F i j := by
  simp only [maskVelPosF, Matrix.of_apply]
  rw [if_neg (by omega)]

/-- Rows 3-8 of the velocity/position-masked state Jacobian hold an
identity diagonal block. -/
theorem maskVelPosF_mid (F : Mat 15 15) (i j : Fin 15)
    (h3 : 3 ≤ (i : ℕ)) (h9 : (i : ℕ) < 9) :
    maskVelPosF F i j = if (i : ℕ) = (j : ℕ) then 1 else 0 := by
  simp only [maskVelPosF, Matrix.of_apply]
  rw [if_pos ⟨h3, h9⟩]

/-- Rows 0-2 of the rotation-masked input Jacobian are zero. -/
theorem maskRotL_low (L : Mat 15 12) (i : Fin 15) (j : Fin 12)
    (hi : (i : ℕ) < 3) : maskRotL L i j = 0 := by
  simp only [maskRotL, Matrix.of_apply]
  rw [if_pos hi]

/-- The rotation mask leaves rows 3 and below of the input Jacobian
unchanged. -/
theorem maskRotL_high (L : Mat 15 12) (i : Fin 15) (j : Fin 12)
    (hi : 3 ≤ (i : ℕ)) : maskRotL L i j = L i j := by
  simp only [maskRotL, Matrix.of_apply]
  rw [if_neg (by omega)]

/-- The velocity/position mask leaves rows 0-2 of the input Jacobian
unchanged. -/
theorem maskVelPosL_low (L : Mat 15 12) (i : Fin 15) (j : Fin 12)
    (hi : (i : ℕ) < 3) : maskVelPosL L i j = L i j := by
  simp only [maskVelPosL, Matrix.of_apply]
  rw [if_neg (by omega)]

/-- Rows 3-8 of the velocity/position-masked input Jacobian are zero. -/
theorem maskVelPosL_mid (L : Mat 15 12) (i : Fin 15) (j : Fin 12)
    (h3 : 3 ≤ (i : ℕ)) (h9 : (i : ℕ) < 9) : maskVelPosL L i j = 0 := by
  simp only [maskVelPosL, Matrix.of_apply]
  rw [if_pos ⟨h3, h9⟩]

/-- C6 (amended): with `marker[0]` set, rows 0-2 of
`NullOnUpdateCoupledIMU.state_jacobian` are zeroed with an identity
diagonal block, while rows 0-2 of `input_jacobian` are zeroed outright (no
identity is written into the noise map); with `marker[1]` set the same
holds for rows 3-8. -/
theorem nullJacobian_marker_gating (P : Prims) (m : NullModel) {N : ℕ}
    (x : BMat N 5 5) (u : BInput N) (dt : ℚ) (hdt : 0 < dt) :
    (m.marker 0 = true →
      ∀ b (i : Fin 15), (i : ℕ) < 3 →
        (∀ j : Fin 15, nullStateJacobian P m x u dt b i j
            = if (i : ℕ) = (j : ℕ) then 1 else 0) ∧
        (∀ j : Fin 12, nullInputJacobian P m x u dt b i j = 0)) ∧
    (m.marker 1 = true →
      ∀ b (i : Fin 15), 3 ≤ (i : ℕ) → (i : ℕ) < 9 →
        (∀ j : Fin 15, nullStateJacobian P m x u dt b i j
            = if (i : ℕ) = (j : ℕ) then 1 else 0) ∧
        (∀ j : Fin 12, nullInputJacobian P m x u dt b i j = 0)) := by
  constructor
  · intro hm0 b i hi
    refine ⟨fun j => ?_, fun j => ?_⟩
    · simp only [nullStateJacobian, hm0, if_true]
      cases hm1 : m.marker 1 <;> simp only [hm1, Bool.false_eq_true,
        if_false, if_true]
      · exact maskRotF_low _ _ _ hi
      · rw [maskVelPosF_low _ _ _ hi]
        exact maskRotF_low _ _ _ hi
    · simp only [nullInputJacobian, hm0, if_true]
      cases hm1 : m.marker 1 <;> simp only [hm1, Bool.false_eq_true,
        if_false, if_true]
      · exact maskRotL_low _ _ _ hi
      · rw [maskVelPosL_low _ _ _ hi]
        exact maskRotL_low _ _ _ hi
  · intro hm1 b i h3 h9
    refine ⟨fun j => ?_, fun j => ?_⟩
    · simp only [nullStateJacobian, hm1, if_true]
      cases hm0 : m.marker 0 <;> simp only [hm0, Bool.false_eq_true,
        if_false, if_true]
      · exact maskVelPosF_mid _ _ _ h3 h9
      · exact maskVelPosF_mid _ _ _ h3 h9
    · simp only [nullInputJacobian, hm1, if_true]
      cases hm0 : m.marker 0 <;> simp only [hm0, Bool.false_eq_true,
        if_false, if_true]
      · exact maskVelPosL_mid _ _ _ h3 h9
      · exact maskVelPosL_mid _ _ _ h3 h9

/-- Witness for C6 (amended) at a concrete marker state, batch element and
entry. -/
theorem nullJacobian_marker_gating_witness :
    nullStateJacobian P0 ⟨mpRight, fun j => j = 0⟩ x0 u0 1 0 0 0 = 1 ∧
    nullInputJacobian P0 ⟨mpRight, fun j => j = 0⟩ x0 u0 1 0 0 5 = 0 := by
  have h := (nullJacobian_marker_gating P0 ⟨mpRight, fun j => j = 0⟩
    x0 u0 1 (by norm_num)).1 (by decide) 0 0 (by norm_num)
  exact ⟨by simpa using h.1 0, h.2 5⟩

/-- Counterexample to C6 as stated: with `marker[0]` set, the diagonal
block of rows 0-2 of `NullOnUpdateCoupledIMU.input_jacobian` is NOT forced
to identity — the rows are zeroed outright, so the `(0,0)` entry is `0`,
not `1`. -/
theorem nullInputJacobian_no_identity_cex :
    ¬ (∀ (i : Fin 3) (j : Fin 3),
        nullInputJacobian P0 ⟨mpRight, fun j => j = 0⟩ x0 u0 1 0
            (Fin.castLE (by omega) i) (Fin.castLE (by omega) j)
          = if i = j then 1 else 0) := by
  intro h
  have h00 := h 0 0
  rw [if_pos rfl] at h00
  have hz : nullInputJacobian P0 ⟨mpRight, fun j => j = 0⟩ x0 u0 1 0
      (Fin.castLE (by omega) (0 : Fin 3)) (Fin.castLE (by omega) (0 : Fin 3))
      = 0 := by
    show maskRotL (coupledInputJacobian P0 mpRight x0 u0 1 0)
        (Fin.castLE (by omega) (0 : Fin 3))
        (Fin.castLE (by omega) (0 : Fin 3)) = 0
    exact maskRotL_low _ _ _ (by norm_num)
  rw [hz] at h00
  exact absurd h00 (by norm_num)

/-- C7: with `marker[1]` set, `NullOnUpdateCoupledIMU.evaluate` returns
`x @ U` with the gravity matrix `G` not applied, where `U` has its
velocity/position columns zeroed (rows 0-2 of columns 3-4) and its trailing
2x2 block forced to identity; consequently the velocity column and the
position column of the returned state equal those of the input state. -/
theorem nullEvaluate_zero_velocity (P : Prims) (m : NullModel) {N : ℕ}
    (x : BMat N 5 5) (u : BInput N) (dt : ℚ) (hdt : 0 < dt)
    (hm : m.marker 1 = true) :
    (nullEvaluate P m x u dt = fun b =>
        x b * maskVelPosU (if m.marker 0 then maskRotU (generate_u P (u b) dt)
          else generate_u P (u b) dt)) ∧
    (∀ b (i : Fin 3),
        maskVelPosU (if m.marker 0 then maskRotU (generate_u P (u b) dt)
          else generate_u P (u b) dt) (emb35 i) 3 = 0 ∧
        maskVelPosU (if m.marker 0 then maskRotU (generate_u P (u b) dt)
          else generate_u P (u b) dt) (emb35 i) 4 = 0) ∧
    (∀ b,
        maskVelPosU (if m.marker 0 then maskRotU (generate_u P (u b) dt)
          else generate_u P (u b) dt) 3 3 = 1 ∧
        maskVelPosU (if m.marker 0 then maskRotU (generate_u P (u b) dt)
          else generate_u P (u b) dt) 3 4 = 0 ∧
        maskVelPosU (if m.marker 0 then maskRotU (generate_u P (u b) dt)
          else generate_u P (u b) dt) 4 3 = 0 ∧
        maskVelPosU (if m.marker 0 then maskRotU (generate_u P (u b) dt)
          else generate_u P (u b) dt) 4 4 = 1) ∧
    (∀ b (i : Fin 5),
        nullEvaluate P m x u dt b i 3 = x b i 3 ∧
        nullEvaluate P m x u dt b i 4 = x b i 4) := by
  have hEval : nullEvaluate P m x u dt = fun b =>
      x b * maskVelPosU (if m.marker 0 then maskRotU (generate_u P (u b) dt)
        else generate_u P (u b) dt) := by
    funext b
    simp [nullEvaluate, hm]
  refine ⟨hEval, ?_, ?_, ?_⟩
  · intro b i
    fin_cases i <;> exact ⟨rfl, rfl⟩
  · intro b
    exact ⟨rfl, rfl, rfl, rfl⟩
  · intro b i
    simp only [hEval]
    constructor
    · rw [Matrix.mul_apply, Fin.sum_univ_five]
      show x b i 0 * 0 + x b i 1 * 0 + x b i 2 * 0 + x b i 3 * 1
          + x b i 4 * 0 = x b i 3
      ring
    · rw [Matrix.mul_apply, Fin.sum_univ_five]
      show x b i 0 * 0 + x b i 1 * 0 + x b i 2 * 0 + x b i 3 * 0
          + x b i 4 * 1 = x b i 4
      ring

/-- Witness for C7 at a concrete marker state, input, batch element and
row. -/
theorem nullEvaluate_zero_velocity_witness :
    nullEvaluate P0 ⟨mpRight, fun j => j = 1⟩ x0 u0 1 0 0 3 = x0 0 0 3 ∧
    nullEvaluate P0 ⟨mpRight, fun j => j = 1⟩ x0 u0 1 0 0 4 = x0 0 0 4 :=
  (nullEvaluate_zero_velocity P0 ⟨mpRight, fun j => j = 1⟩ x0 u0 1
    (by norm_num) (by decide)).2.2.2 0 0

/-- Products of matrices reindexed from `(3 + 2) x (3 + 2)` block form. -/
theorem reindex55_mul (M N : Matrix (Fin 3 ⊕ Fin 2) (Fin 3 ⊕ Fin 2) ℚ) :
    reindex55 M * reindex55 N = reindex55 (M * N) := by
  simp only [reindex55, Matrix.reindex_apply]
  exact Matrix.submatrix_mul_equiv M N _ _ _

/-- The `5 x 5` block reindexing preserves the identity. -/
theorem reindex55_one : reindex55 1 = 1 := by
  simp only [reindex55, Matrix.reindex_apply]
  exact Matrix.submatrix_one_equiv finSumFinEquiv.symm

/-- A `3 x 3` matrix times a two-column matrix acts columnwise. -/
theorem mul_twoCols (A : Mat 3 3) (p q : Vec3) :
    A * twoCols p q = twoCols (A.mulVec p) (A.mulVec q) := by
  ext i j
  fin_cases j <;>
    simp [twoCols, Matrix.mul_apply, Matrix.mulVec, Matrix.dotProduct]

/-- A two-column matrix times a `2 x 2` matrix mixes the columns. -/
theorem twoCols_mul_fin_two (p q : Vec3) (a b c d : ℚ) :
    twoCols p q * !![a, b; c, d]
      = twoCols (a • p + c • q) (b • p + d • q) := by
  ext i j
  fin_cases j <;>
    simp [twoCols, Matrix.mul_apply, Fin.sum_univ_two, mul_comm]

/-- Two-column matrices add columnwise. -/
theorem twoCols_add (p q p' q' : Vec3) :
    twoCols p q + twoCols p' q' = twoCols (p + p') (q + q') := by
  ext i j
  fin_cases j <;> simp [twoCols]

/-- The two-column matrix of zero columns is zero. -/
theorem twoCols_zero : twoCols 0 0 = (0 : Matrix (Fin 3) (Fin 2) ℚ) := by
  ext i j
  fin_cases j <;> simp [twoCols]

/-- The upper-triangular `2 x 2` factors of an IE3 matrix and of its
closed-form inverse multiply to the identity. -/
theorem fin_two_triangular_inv (c : ℚ) :
    (!![1, c; 0, 1] : Matrix (Fin 2) (Fin 2) ℚ) * !![1, -c; 0, 1] = 1 := by
  rw [Matrix.mul_fin_two, Matrix.one_fin_two]
  norm_num

/-- Block form of `X @ ie3_inv(X)` for an IE3 matrix with orthonormal
rotation block. -/
theorem blockUT_mul_inv (A : Mat 3 3) (v r : Vec3) (c : ℚ)
    (hA : A * Aᵀ = 1) :
    reindex55 (Matrix.fromBlocks A (twoCols v r) 0 !![1, c; 0, 1])
      * reindex55 (Matrix.fromBlocks Aᵀ
          (twoCols (-(Aᵀ.mulVec v)) (Aᵀ.mulVec (c • v - r))) 0
          !![1, -c; 0, 1]) = 1 := by
  rw [reindex55_mul, Matrix.fromBlocks_multiply]
  have hB : A * twoCols (-(Aᵀ.mulVec v)) (Aᵀ.mulVec (c • v - r))
      + twoCols v r * !![1, -c; 0, 1] = 0 := by
    rw [mul_twoCols, twoCols_mul_fin_two, Matrix.mulVec_neg,
      Matrix.mulVec_mulVec, Matrix.mulVec_mulVec, hA, Matrix.one_mulVec,
      Matrix.one_mulVec, twoCols_add]
    rw [show -v + ((1 : ℚ) • v + (0 : ℚ) • r) = 0 by simp]
    rw [show c • v - r + (-c • v + (1 : ℚ) • r) = 0 by
      simp only [neg_smul, one_smul]
      abel]
    exact twoCols_zero
  have hD := fin_two_triangular_inv c
  simp only [Matrix.mul_zero, Matrix.zero_mul, add_zero, zero_add, hA,
    hB, hD]
  rw [Matrix.fromBlocks_one, reindex55_one]

/-- Block form of `ie3_inv(X) @ X` for an IE3 matrix with orthonormal
rotation block. -/
theorem blockInv_mul_UT (A : Mat 3 3) (v r : Vec3) (c : ℚ)
    (hA : Aᵀ * A = 1) :
    reindex55 (Matrix.fromBlocks Aᵀ
        (twoCols (-(Aᵀ.mulVec v)) (Aᵀ.mulVec (c • v - r))) 0
        !![1, -c; 0, 1])
      * reindex55 (Matrix.fromBlocks A (twoCols v r) 0 !![1, c; 0, 1])
      = 1 := by
  rw [reindex55_mul, Matrix.fromBlocks_multiply]
  have hB : Aᵀ * twoCols v r
      + twoCols (-(Aᵀ.mulVec v)) (Aᵀ.mulVec (c • v - r)) * !![1, c; 0, 1]
      = 0 := by
    rw [mul_twoCols, twoCols_mul_fin_two, twoCols_add]
    rw [show Aᵀ.mulVec v + ((1 : ℚ) • -(Aᵀ.mulVec v)
        + (0 : ℚ) • Aᵀ.mulVec (c • v - r)) = 0 by simp]
    rw [show Aᵀ.mulVec r + (c • -(Aᵀ.mulVec v)
        + (1 : ℚ) • Aᵀ.mulVec (c • v - r)) = 0 by
      rw [Matrix.mulVec_sub, Matrix.mulVec_smul]
      simp only [one_smul, smul_neg]
      abel]
    exact twoCols_zero
  have hD : (!![1, -c; 0, 1] : Matrix (Fin 2) (Fin 2) ℚ) * !![1, c; 0, 1]
      = 1 := by
    have := fin_two_triangular_inv (-c)
    rwa [neg_neg] at this
  simp only [Matrix.mul_zero, Matrix.zero_mul, add_zero, zero_add, hA,
    hB, hD]
  rw [Matrix.fromBlocks_one, reindex55_one]

/-- C10: for every 5x5 IE3 matrix whose upper-left 3x3 block is orthonormal
and whose rows 3-4 have the fixed pattern `[0,0,0,1,c / 0,0,0,0,1]`,
`CoupledIMUKinematicModel.ie3_inv` is an exact two-sided inverse. -/
theorem ie3_inv_two_sided (X : Mat 5 5)
    (hC : (compC X)ᵀ * compC X = 1)
    (h30 : X 3 0 = 0) (h31 : X 3 1 = 0) (h32 : X 3 2 = 0)
    (h33 : X 3 3 = 1) (h40 : X 4 0 = 0) (h41 : X 4 1 = 0)
    (h42 : X 4 2 = 0) (h43 : X 4 3 = 0) (h44 : X 4 4 = 1) :
    X * ie3_inv X = 1 ∧ ie3_inv X * X = 1 := by
  have hXdecomp : X = reindex55 (Matrix.fromBlocks (compC X)
      (twoCols (compV X) (compR X)) 0 !![1, X 3 4; 0, 1]) := by
    ext i j
    fin_cases i <;> fin_cases j <;>
      first
        | rfl
        | exact h30 | exact h31 | exact h32 | exact h33
        | exact h40 | exact h41 | exact h42 | exact h43 | exact h44
  constructor
  · nth_rewrite 1 [hXdecomp]
    exact blockUT_mul_inv (compC X) (compV X) (compR X) (X 3 4)
      (Matrix.mul_eq_one_comm.mp hC)
  · nth_rewrite 2 [hXdecomp]
    exact blockInv_mul_UT (compC X) (compV X) (compR X) (X 3 4) hC

/-- Witness for C10 at the concrete IE3 matrix `Xw`. -/
theorem ie3_inv_two_sided_witness : Xw * ie3_inv Xw = 1 :=
  (ie3_inv_two_sided Xw
    (by
      have hc : compC Xw = 1 := by
        ext i j
        fin_cases i <;> fin_cases j <;> rfl
      rw [hc, Matrix.transpose_one, Matrix.one_mul])
    rfl rfl rfl rfl rfl rfl rfl rfl rfl).1

/-- C8: `IMUKinematicModel.evaluate` mutates its state argument in place
(writing the propagated attitude log-vector, velocity and position into
slices `[0:3]`, `[3:6]`, `[6:9]`, leaving the bias slice untouched),
mutates the instance field `self.C`, and returns the pair `(x, self.C)`
whose first element is the very address of the argument tensor. -/
theorem imuEvaluate_in_place (P : Prims) (g_a : Vec3) {N : ℕ}
    (σ : Store N) (addr : ℕ) (selfC : BMat N 3 3) (u : BInput N)
    (dt : ℚ) :
    (imuEvaluate P g_a σ addr selfC u dt).2.2.1 = addr ∧
    (imuEvaluate P g_a σ addr selfC u dt).2.2.2
      = (imuEvaluate P g_a σ addr selfC u dt).2.1 ∧
    (imuEvaluate P g_a σ addr selfC u dt).1 addr
      = imuWrittenState P g_a (σ addr) u dt ∧
    (imuEvaluate P g_a σ addr selfC u dt).2.1
      = imuWrittenC P (σ addr) u dt ∧
    imuWrittenC P (σ addr) u dt
      = (fun b => P.so3ExpT (fun i => σ addr b (Fin.castLE (by omega) i))
          * P.so3ExpT (dt • u b 0)) ∧
    (∀ b (i : Fin 3),
        imuWrittenState P g_a (σ addr) u dt b (Fin.castLE (by omega) i)
          = P.so3LogT (imuWrittenC P (σ addr) u dt b) i) ∧
    (∀ b (i : Fin 3),
        imuWrittenState P g_a (σ addr) u dt b ⟨3 + (i : ℕ), by omega⟩
          = ((fun j : Fin 3 => σ addr b ⟨3 + (j : ℕ), by omega⟩) + dt • g_a
              + dt • (P.so3ExpT
                  (fun j : Fin 3 =>
                    σ addr b (Fin.castLE (by omega) j))).mulVec
                  (u b 1)) i) ∧
    (∀ b (i : Fin 3),
        imuWrittenState P g_a (σ addr) u dt b ⟨6 + (i : ℕ), by omega⟩
          = ((fun j : Fin 3 => σ addr b ⟨6 + (j : ℕ), by omega⟩)
              + dt • (fun j : Fin 3 => σ addr b ⟨3 + (j : ℕ), by omega⟩)
              + (dt ^ 2 / 2) • (g_a + (P.so3ExpT
                  (fun j : Fin 3 =>
                    σ addr b (Fin.castLE (by omega) j))).mulVec
                  (u b 1))) i) ∧
    (∀ b (i : Fin 6),
        imuWrittenState P g_a (σ addr) u dt b ⟨9 + (i : ℕ), by omega⟩
          = σ addr b ⟨9 + (i : ℕ), by omega⟩) := by
  refine ⟨rfl, rfl, Function.update_same _ _ _, rfl, rfl, ?_, ?_, ?_, ?_⟩
  · intro b i
    have h3 : ((Fin.castLE (by omega : (3 : ℕ) ≤ 15) i : Fin 15) : ℕ) < 3 :=
      i.isLt
    simp [imuWrittenState, imuWrittenC, h3]
  · intro b i
    have h1 : ¬ ((3 + (i : ℕ)) < 3) := by omega
    have h2 : (3 + (i : ℕ)) < 6 := by omega
    simp [imuWrittenState, h1, h2]
  · intro b i
    have h1 : ¬ ((6 + (i : ℕ)) < 3) := by omega
    have h2 : ¬ ((6 + (i : ℕ)) < 6) := by omega
    have h3 : (6 + (i : ℕ)) < 9 := by omega
    simp [imuWrittenState, h1, h2, h3]
  · intro b i
    have h1 : ¬ ((9 + (i : ℕ)) < 3) := by omega
    have h2 : ¬ ((9 + (i : ℕ)) < 6) := by omega
    have h3 : ¬ ((9 + (i : ℕ)) < 9) := by omega
    simp [imuWrittenState, h1, h2, h3]

end ProcessModels
